import Mathlib

/-!
# Verification of `gpu_stress.py`

A shallow embedding of the GPU stress / fragmentation utility `gpu_stress.py`.

The program has three verifiable pieces:

* `MemoryFragmenter.fragment` — a loop that repeatedly picks a random
  candidate block size, tries to allocate a tensor of that size, halves all
  candidates on out-of-memory, and occasionally frees a random live tensor.
  We embed the loop body as a pure step function `stepFrag` on an explicit
  state `FragState`, with all randomness and allocation outcomes supplied by
  an external `Decision` stream; `statesFrag` iterates the body while the
  loop guard holds and freezes once the guard fails.
* `busy_loop_mem_power_fragment` — a timed compute loop whose termination
  check fires only every 8th iteration; elapsed wall-clock readings are
  supplied by an external function `Nat → ℚ`, and the loop is embedded as a
  fuel-indexed iteration `computeLoop` returning the exit iteration count.
* the CLI dispatch in `main` / `run_all_gpus` — embedded as pure functions
  describing the work that would be launched.

Python `int` values that stay non-negative in every execution of the program
(byte sizes, element counts, iteration counters) are modelled as `Nat`;
values the source computes with signed arithmetic (`allocated`, the
`min_block` threshold, CLI integers) are modelled as `Int`.  Python floats
(`target_mem_ratio`, `hours`, time readings) are modelled as `ℚ`.
-/

/-- The torch dtypes the program can mention.  Only `float32` is ever used
(the `FragmentConfig` default; nothing overrides it). -/
inductive TorchDtype where
  | float32
  | float16
  | float64
deriving DecidableEq, Repr

/-- `torch.tensor([], dtype=dtype).element_size()`: bytes per element. -/
def TorchDtype.element_size : TorchDtype → Nat
  | .float32 => 4
  | .float16 => 2
  | .float64 => 8

/-- `_bytes_to_elements(num_bytes, dtype)`: `max(1, num_bytes // itemsize)`. -/
def bytes_to_elements (num_bytes itemsize : Nat) : Nat :=
  max 1 (num_bytes / itemsize)

/-- Byte size actually occupied by a tensor allocated for a request of
`num_bytes` bytes: `tensor.element_size() * tensor.nelement()`
with `nelement = _bytes_to_elements(num_bytes, dtype)`. -/
def tensorBytes (itemsize num_bytes : Nat) : Nat :=
  itemsize * bytes_to_elements num_bytes itemsize

/-- `FragmentConfig` dataclass, with the source's default field values. -/
structure FragmentConfig where
  target_mem_ratio : ℚ := 95 / 100
  block_size_mib : List Nat := [512, 256, 128, 64, 32, 16, 8, 4, 2, 1]
  min_block_mib : Int := 1
  dtype : TorchDtype := .float32
  random_free_ratio : ℚ := 15 / 100
deriving DecidableEq, Repr

/-- `FragmentConfig.block_size_bytes`: each MiB size scaled to bytes. -/
def FragmentConfig.block_size_bytes (c : FragmentConfig) : List Nat :=
  c.block_size_mib.map (fun s => s * 1024 * 1024)

/-- Python `int(q)` on a float: truncation toward zero. -/
def pyInt (q : ℚ) : Int :=
  if 0 ≤ q then ⌊q⌋ else ⌈q⌉

/-- One iteration's worth of external nondeterminism in the fragmentation
loop: the `random.choice` pick (an index into the current candidate list,
taken modulo its length), whether `torch.empty` succeeds or raises
out-of-memory, whether `random.random() < random_free_ratio`, and the
`random.randrange` index of the tensor to free. -/
structure Decision where
  pick : Nat
  allocOk : Bool
  doFree : Bool
  freeIdx : Nat
deriving DecidableEq, Repr

/-- Mutable state of the fragmentation loop: the working candidate list
`block_sizes`, the live tensors `self._tensors` (each recorded by its byte
size `element_size() * nelement()`), and the running `allocated` counter. -/
structure FragState where
  blockSizes : List Nat
  tensors : List Nat
  allocated : Int
deriving DecidableEq, Repr

/-- Loop-level configuration of `MemoryFragmenter.fragment`, as computed in
its prologue: `target_mem`, `min_block`, the dtype's itemsize, and the
initial candidate list `block_sizes`. -/
structure FragLoop where
  target : Int
  minBlock : Int
  itemsize : Nat
  blockSizes0 : List Nat
deriving DecidableEq, Repr

/-- The `FragLoop` the prologue of `fragment` derives from a
`FragmentConfig` and the device's total memory:
`target_mem = int(total_mem * target_mem_ratio)`,
`min_block = int(min_block_mib * 1024 * 1024)`. -/
def fragLoopOf (c : FragmentConfig) (totalMem : Nat) : FragLoop :=
  { target := pyInt ((totalMem : ℚ) * c.target_mem_ratio)
    minBlock := c.min_block_mib * 1024 * 1024
    itemsize := c.dtype.element_size
    blockSizes0 := c.block_size_bytes }

/-- Initial loop state: fresh candidate list, no tensors, `allocated = 0`. -/
def initFrag (L : FragLoop) : FragState :=
  { blockSizes := L.blockSizes0, tensors := [], allocated := 0 }

/-- Negation of the `while` guard
`allocated < target_mem and block_sizes`: the loop is done when the target
is reached or the candidate list is empty. -/
def fragDone (L : FragLoop) (s : FragState) : Bool :=
  decide (L.target ≤ s.allocated) || s.blockSizes.isEmpty

/-- `random.choice(block_sizes)`: the element at the oracle's pick index,
reduced modulo the list length (the guard guarantees non-emptiness). -/
def pickBytes (s : FragState) (d : Decision) : Nat :=
  s.blockSizes.getD (d.pick % s.blockSizes.length) 0

/-- The out-of-memory fallback
`block_sizes = [size // 2 for size in block_sizes if size // 2 >= min_block]`. -/
def halveSizes (minBlock : Int) (sizes : List Nat) : List Nat :=
  (sizes.map (fun z => z / 2)).filter (fun z => decide (minBlock ≤ (z : Int)))

/-- One iteration of the body of the `while` loop in
`MemoryFragmenter.fragment`, for a state satisfying the guard:

* if the picked size is below `min_block`, `block_sizes.remove(...)` it;
* otherwise attempt the allocation; on `RuntimeError` replace the candidate
  list by `[size // 2 for size in block_sizes if size // 2 >= min_block]`;
* on success append the tensor and add its byte size to `allocated`; then,
  if the free coin fires, pop a random live tensor and subtract its size. -/
def stepFrag (L : FragLoop) (s : FragState) (d : Decision) : FragState :=
  let block_bytes := pickBytes s d
  if (block_bytes : Int) < L.minBlock then
    { s with blockSizes := s.blockSizes.erase block_bytes }
  else if d.allocOk then
    let bytes := tensorBytes L.itemsize block_bytes
    let ts := s.tensors ++ [bytes]
    if d.doFree then
      let i := d.freeIdx % ts.length
      { s with tensors := ts.eraseIdx i,
               allocated := s.allocated + bytes - ts.getD i 0 }
    else
      { s with tensors := ts, allocated := s.allocated + bytes }
  else
    { s with blockSizes := halveSizes L.minBlock s.blockSizes }

/-- State of the fragmentation loop after `n` iterations, starting from
`s0`, with the `n`-th iteration's randomness given by `oracle n`.  Once the
guard fails the state freezes, so `statesFrag … n` is meaningful for all
`n`. -/
def statesFrag (L : FragLoop) (oracle : Nat → Decision) (s0 : FragState) :
    Nat → FragState
  | 0 => s0
  | n + 1 =>
    let s := statesFrag L oracle s0 n
    if fragDone L s then s else stepFrag L s (oracle n)

/-- The four ways an iteration of the loop body can go. -/
inductive FragBranch where
  | remove
  | oom
  | allocKeep
  | allocFree
deriving DecidableEq, Repr

/-- Which branch the loop body takes from state `s` on decision `d`
(mirrors the control flow of `stepFrag`). -/
def branchOf (L : FragLoop) (s : FragState) (d : Decision) : FragBranch :=
  if (pickBytes s d : Int) < L.minBlock then .remove
  else if d.allocOk then
    if d.doFree then .allocFree else .allocKeep
  else .oom

/-- Whether iteration `n` actually runs (the guard still holds) and
performs a successful allocation. -/
def allocAt (L : FragLoop) (oracle : Nat → Decision) (s0 : FragState)
    (n : Nat) : Bool :=
  !fragDone L (statesFrag L oracle s0 n) &&
    (branchOf L (statesFrag L oracle s0 n) (oracle n) == .allocKeep ||
     branchOf L (statesFrag L oracle s0 n) (oracle n) == .allocFree)

/-- Whether iteration `n` actually runs and frees a tensor. -/
def freeAt (L : FragLoop) (oracle : Nat → Decision) (s0 : FragState)
    (n : Nat) : Bool :=
  !fragDone L (statesFrag L oracle s0 n) &&
    branchOf L (statesFrag L oracle s0 n) (oracle n) == .allocFree

/-- Number of successful allocations among the first `n` iterations. -/
def allocCount (L : FragLoop) (oracle : Nat → Decision) (s0 : FragState) :
    Nat → Nat
  | 0 => 0
  | n + 1 =>
    allocCount L oracle s0 n + (if allocAt L oracle s0 n then 1 else 0)

/-- Number of frees among the first `n` iterations. -/
def freeCount (L : FragLoop) (oracle : Nat → Decision) (s0 : FragState) :
    Nat → Nat
  | 0 => 0
  | n + 1 =>
    freeCount L oracle s0 n + (if freeAt L oracle s0 n then 1 else 0)

/-! ## The compute loop of `busy_loop_mem_power_fragment`

The loop body always runs `_touch_fragmented_tensors` and
`_run_power_kernel`, increments `iteration`, and only when
`iteration % 8 == 0` synchronizes, reads the elapsed wall-clock time and
compares it against `target_sec = hours * 3600`.  We embed it as a
fuel-indexed iteration over the iteration counter; `elapsedAt k` is the
wall-clock reading the loop would observe at the check of iteration `k`,
an external input.  The result is `some n` when the loop exits at
iteration `n` within the given fuel, `none` when the fuel runs out. -/

/-- Iterations of the `while True` loop of `busy_loop_mem_power_fragment`
starting from iteration counter `iteration`, with `fuel` iterations of
budget: returns the iteration count at which the loop breaks. -/
def computeLoop (target_sec : ℚ) (elapsedAt : Nat → ℚ) :
    Nat → Nat → Option Nat
  | 0, _ => none
  | fuel + 1, iteration =>
    let it1 := iteration + 1
    if it1 % 8 = 0 ∧ target_sec ≤ elapsedAt it1 then some it1
    else computeLoop target_sec elapsedAt fuel it1

/-- The compute phase of `busy_loop_mem_power_fragment`: the loop starts
with `iteration = 0` and `target_sec = hours * 3600`. -/
def busyLoopExit (hours : ℚ) (elapsedAt : Nat → ℚ) (fuel : Nat) :
    Option Nat :=
  computeLoop (hours * 3600) elapsedAt fuel 0

/-! ## CLI dispatch: `main` and `run_all_gpus` -/

/-- The work `main` dispatches after validating its arguments. -/
inductive MainWork where
  | runOne (device_id : Int)
  | runAll (device_count : Nat)
deriving DecidableEq, Repr

/-- The dispatch logic of `main` after argument parsing: with `--device`
given, validate `0 <= args.device < torch.cuda.device_count()` and raise
`ValueError` otherwise before any work; without it, run on all devices. -/
def mainDispatch (device_count : Nat) (device : Option Int) :
    Except String MainWork :=
  match device with
  | some d =>
    if 0 ≤ d ∧ d < (device_count : Int) then .ok (.runOne d)
    else .error ("Invalid GPU id " ++ toString d)
  | none => .ok (.runAll device_count)

/-- The `FragmentConfig` that `main` builds from the parsed CLI arguments:
`target_mem_ratio`, `random_free_ratio` and `min_block_mib` come from the
flags, every other field keeps its dataclass default. -/
def mainConfig (targetMemRatio freeRatio : ℚ) (minBlockMib : Int) :
    FragmentConfig :=
  { target_mem_ratio := targetMemRatio
    random_free_ratio := freeRatio
    min_block_mib := minBlockMib }

/-- One `threading.Thread` created by `run_all_gpus`: its target is
`run_on_gpu` with arguments `(device_id, hours, config)`. -/
structure WorkerThread where
  device_id : Nat
  hours : ℚ
  config : FragmentConfig
deriving DecidableEq, Repr

/-- The threads `run_all_gpus` starts: one per
`device_id in range(torch.cuda.device_count())`, in order, each running
`run_on_gpu(device_id, hours, config)`. -/
def runAllStarted (device_count : Nat) (hours : ℚ) (c : FragmentConfig) :
    List WorkerThread :=
  (List.range device_count).map (fun d => ⟨d, hours, c⟩)

/-- The threads `run_all_gpus` joins before returning: every value of the
`threads` dict, i.e. every started thread, in insertion order. -/
def runAllJoined (device_count : Nat) (hours : ℚ) (c : FragmentConfig) :
    List WorkerThread :=
  runAllStarted device_count hours c

/-! ## The data-model invariant claimed for `FragmentConfig` -/

/-- Largest candidate block size of a config, in bytes. -/
def largestBlockBytes (c : FragmentConfig) : Nat :=
  c.block_size_bytes.foldr max 0

/-- The invariant the specification's data model asserts about
`FragmentConfig`: candidate sizes are non-increasing, and the minimum block
size is at most the largest candidate. -/
def configInvariant (c : FragmentConfig) : Prop :=
  List.Chain' (fun a b => b ≤ a) c.block_size_bytes ∧
    (c.min_block_mib * 1024 * 1024 : Int) ≤ (largestBlockBytes c : Int)

/-- The precondition of the spec's memory-bound property: every allocation
request the loop actually makes and that succeeds fits into the device's
remaining capacity (`allocated` plus the request stays within `total`). -/
def allocAdmissible (total : Int) (L : FragLoop) (oracle : Nat → Decision)
    (s0 : FragState) : Prop :=
  ∀ n, fragDone L (statesFrag L oracle s0 n) = false →
    (oracle n).allocOk = true →
    ¬ ((pickBytes (statesFrag L oracle s0 n) (oracle n) : Int) < L.minBlock) →
    (statesFrag L oracle s0 n).allocated +
      (tensorBytes L.itemsize
        (pickBytes (statesFrag L oracle s0 n) (oracle n)) : Int) ≤ total

/-- Ranking function for the fragmentation loop: remaining distance to the
target plus the total weight of the candidate list. -/
def fragMeasure (L : FragLoop) (s : FragState) : Nat :=
  (L.target - s.allocated).toNat + s.blockSizes.sum + s.blockSizes.length

/-- Constant random stream, for concrete runs. -/
def constOracle (d : Decision) : Nat → Decision := fun _ => d

/-- A concrete loop configuration: one 512 MiB candidate, 1 MiB minimum,
float32 elements, a target just under 1 GiB. -/
def advLoop : FragLoop := ⟨1000000000, 1048576, 4, [536870912]⟩

/-- Adversarial random stream: every allocation succeeds and the free coin
always fires, victimising the tensor that was just allocated. -/
def advOracle : Nat → Decision := constOracle ⟨0, true, true, 0⟩

/-- Concrete loop configuration for exercising the free branch. -/
def c3L : FragLoop := ⟨100, 1, 4, [8]⟩

/-- A mid-run state with one live 4-byte tensor. -/
def c3S : FragState := ⟨[8], [4], 4⟩

/-- A decision that allocates successfully and frees the new tensor. -/
def c3D : Decision := ⟨0, true, true, 1⟩

/-- A stream that allocates and immediately frees, forever. -/
def c3O : Nat → Decision := constOracle ⟨0, true, true, 0⟩

/-! ## Helper lemmas -/

theorem statesFrag_succ (L : FragLoop) (oracle : Nat → Decision)
    (s0 : FragState) (n : Nat) :
    statesFrag L oracle s0 (n + 1) =
      if fragDone L (statesFrag L oracle s0 n) then statesFrag L oracle s0 n
      else stepFrag L (statesFrag L oracle s0 n) (oracle n) := rfl

theorem statesFrag_succ_of_done {L : FragLoop} {oracle : Nat → Decision}
    {s0 : FragState} {n : Nat}
    (h : fragDone L (statesFrag L oracle s0 n) = true) :
    statesFrag L oracle s0 (n + 1) = statesFrag L oracle s0 n := by
  rw [statesFrag_succ, if_pos h]

theorem statesFrag_succ_of_active {L : FragLoop} {oracle : Nat → Decision}
    {s0 : FragState} {n : Nat}
    (h : fragDone L (statesFrag L oracle s0 n) = false) :
    statesFrag L oracle s0 (n + 1) =
      stepFrag L (statesFrag L oracle s0 n) (oracle n) := by
  rw [statesFrag_succ, if_neg (by simp [h])]

/-- Invariant combinator: a predicate holding initially and preserved by
every active step holds at every point of the run. -/
theorem statesFrag_invariant (L : FragLoop) (oracle : Nat → Decision)
    (s0 : FragState) (P : FragState → Prop) (h0 : P s0)
    (hstep : ∀ n, fragDone L (statesFrag L oracle s0 n) = false →
      P (statesFrag L oracle s0 n) →
      P (stepFrag L (statesFrag L oracle s0 n) (oracle n))) :
    ∀ n, P (statesFrag L oracle s0 n) := by
  intro n
  induction n with
  | zero => exact h0
  | succ k ih =>
    cases h : fragDone L (statesFrag L oracle s0 k) with
    | false =>
      rw [statesFrag_succ_of_active h]
      exact hstep k h ih
    | true =>
      rw [statesFrag_succ_of_done h]
      exact ih

theorem fragDone_false_iff {L : FragLoop} {s : FragState} :
    fragDone L s = false ↔ s.allocated < L.target ∧ s.blockSizes ≠ [] := by
  simp [fragDone, List.isEmpty_iff, not_le]

theorem getD_mem_of_lt {l : List Nat} {i : Nat} (h : i < l.length) :
    l.getD i 0 ∈ l := by
  rw [List.getD_eq_getElem?_getD, List.getElem?_eq_getElem h]
  exact List.getElem_mem h

theorem pickBytes_mem {s : FragState} (d : Decision)
    (h : s.blockSizes ≠ []) : pickBytes s d ∈ s.blockSizes := by
  have hlen : 0 < s.blockSizes.length := List.length_pos.mpr h
  exact getD_mem_of_lt (Nat.mod_lt _ hlen)

theorem getD_add_sum_eraseIdx :
    ∀ (l : List Nat) (i : Nat), i < l.length →
      l.getD i 0 + (l.eraseIdx i).sum = l.sum := by
  intro l
  induction l with
  | nil => intro i h; simp at h
  | cons a tl ih =>
    intro i h
    match i with
    | 0 => simp [List.eraseIdx]
    | j + 1 =>
      have hj : j < tl.length := by simpa using h
      have := ih j hj
      simp only [List.getD_cons_succ, List.eraseIdx_cons_succ, List.sum_cons]
      omega

/-! Case analysis of one loop-body step. -/

theorem stepFrag_eq_remove {L : FragLoop} {s : FragState} {d : Decision}
    (h : (pickBytes s d : Int) < L.minBlock) :
    stepFrag L s d = { s with blockSizes := s.blockSizes.erase (pickBytes s d) } := by
  simp [stepFrag, h]

theorem stepFrag_eq_oom {L : FragLoop} {s : FragState} {d : Decision}
    (h : ¬ ((pickBytes s d : Int) < L.minBlock)) (ha : d.allocOk = false) :
    stepFrag L s d = { s with blockSizes := halveSizes L.minBlock s.blockSizes } := by
  simp [stepFrag, h, ha]

theorem stepFrag_eq_allocKeep {L : FragLoop} {s : FragState} {d : Decision}
    (h : ¬ ((pickBytes s d : Int) < L.minBlock)) (ha : d.allocOk = true)
    (hf : d.doFree = false) :
    stepFrag L s d =
      { s with tensors := s.tensors ++ [tensorBytes L.itemsize (pickBytes s d)],
               allocated := s.allocated + tensorBytes L.itemsize (pickBytes s d) } := by
  simp [stepFrag, h, ha, hf]

theorem stepFrag_eq_allocFree {L : FragLoop} {s : FragState} {d : Decision}
    (h : ¬ ((pickBytes s d : Int) < L.minBlock)) (ha : d.allocOk = true)
    (hf : d.doFree = true) :
    stepFrag L s d =
      { s with
          tensors := (s.tensors ++ [tensorBytes L.itemsize (pickBytes s d)]).eraseIdx
            (d.freeIdx % (s.tensors ++ [tensorBytes L.itemsize (pickBytes s d)]).length),
          allocated := s.allocated + tensorBytes L.itemsize (pickBytes s d) -
            ((s.tensors ++ [tensorBytes L.itemsize (pickBytes s d)]).getD
              (d.freeIdx % (s.tensors ++ [tensorBytes L.itemsize (pickBytes s d)]).length) 0) } := by
  simp [stepFrag, h, ha, hf]

theorem branchOf_remove_iff {L : FragLoop} {s : FragState} {d : Decision} :
    branchOf L s d = .remove ↔ (pickBytes s d : Int) < L.minBlock := by
  by_cases h : (pickBytes s d : Int) < L.minBlock <;>
    cases ha : d.allocOk <;> cases hf : d.doFree <;>
      simp [branchOf, h, ha, hf]

theorem branchOf_allocFree_iff {L : FragLoop} {s : FragState} {d : Decision} :
    branchOf L s d = .allocFree ↔
      ¬ ((pickBytes s d : Int) < L.minBlock) ∧ d.allocOk = true ∧ d.doFree = true := by
  by_cases h : (pickBytes s d : Int) < L.minBlock <;>
    cases ha : d.allocOk <;> cases hf : d.doFree <;>
      simp [branchOf, h, ha, hf]

theorem branchOf_allocKeep_iff {L : FragLoop} {s : FragState} {d : Decision} :
    branchOf L s d = .allocKeep ↔
      ¬ ((pickBytes s d : Int) < L.minBlock) ∧ d.allocOk = true ∧ d.doFree = false := by
  by_cases h : (pickBytes s d : Int) < L.minBlock <;>
    cases ha : d.allocOk <;> cases hf : d.doFree <;>
      simp [branchOf, h, ha, hf]

theorem branchOf_oom_iff {L : FragLoop} {s : FragState} {d : Decision} :
    branchOf L s d = .oom ↔
      ¬ ((pickBytes s d : Int) < L.minBlock) ∧ d.allocOk = false := by
  by_cases h : (pickBytes s d : Int) < L.minBlock <;>
    cases ha : d.allocOk <;> cases hf : d.doFree <;>
      simp [branchOf, h, ha, hf]

/-- A successful allocation stores at least one byte (`itemsize` bytes, in
fact): `max(1, …)` never lets the element count drop to zero. -/
theorem one_le_tensorBytes {itemsize : Nat} (h : 1 ≤ itemsize)
    (num_bytes : Nat) : 1 ≤ tensorBytes itemsize num_bytes := by
  have : 1 ≤ bytes_to_elements num_bytes itemsize := le_max_left _ _
  calc 1 = 1 * 1 := by omega
  _ ≤ itemsize * bytes_to_elements num_bytes itemsize :=
      Nat.mul_le_mul h this

/-- One loop-body step preserves consistency of `allocated` with the byte
sizes of the live tensors. -/
theorem stepFrag_allocated_sum {L : FragLoop} {s : FragState} {d : Decision}
    (h : s.allocated = (s.tensors.sum : Int)) :
    (stepFrag L s d).allocated = ((stepFrag L s d).tensors.sum : Int) := by
  by_cases hb : (pickBytes s d : Int) < L.minBlock
  · rw [stepFrag_eq_remove hb]
    exact h
  · cases ha : d.allocOk with
    | false =>
      rw [stepFrag_eq_oom hb ha]
      exact h
    | true =>
      cases hf : d.doFree with
      | false =>
        rw [stepFrag_eq_allocKeep hb ha hf]
        simp only [List.sum_append, List.sum_cons, List.sum_nil]
        omega
      | true =>
        rw [stepFrag_eq_allocFree hb ha hf]
        have hpos : 0 <
            (s.tensors ++ [tensorBytes L.itemsize (pickBytes s d)]).length := by
          simp
        have hi := Nat.mod_lt d.freeIdx hpos
        have hsum := getD_add_sum_eraseIdx
          (s.tensors ++ [tensorBytes L.itemsize (pickBytes s d)]) _ hi
        simp only [List.sum_append, List.sum_cons, List.sum_nil] at hsum
        simp only
        omega

/-- Exit analysis of the compute loop: a `some` result is a multiple of 8
strictly above the starting iteration counter. -/
theorem computeLoop_exit (target_sec : ℚ) (elapsedAt : Nat → ℚ) :
    ∀ (fuel iteration n : Nat),
      computeLoop target_sec elapsedAt fuel iteration = some n →
      n % 8 = 0 ∧ iteration < n := by
  intro fuel
  induction fuel with
  | zero =>
    intro iteration n h
    simp [computeLoop] at h
  | succ f ih =>
    intro iteration n h
    simp only [computeLoop] at h
    by_cases hc : (iteration + 1) % 8 = 0 ∧ target_sec ≤ elapsedAt (iteration + 1)
    · rw [if_pos hc] at h
      have hn : iteration + 1 = n := by
        simpa using h
      subst hn
      exact ⟨hc.1, Nat.lt_succ_self _⟩
    · rw [if_neg hc] at h
      have := ih _ _ h
      exact ⟨this.1, Nat.lt_trans (Nat.lt_succ_self _) this.2⟩

theorem halveSizes_sum_length_le {m : Int} (hm : 1 ≤ m) :
    ∀ l : List Nat, (halveSizes m l).sum + (halveSizes m l).length ≤ l.sum := by
  intro l
  induction l with
  | nil => simp [halveSizes]
  | cons a tl ih =>
    simp only [halveSizes, List.map_cons, List.filter_cons] at ih ⊢
    cases hp : decide (m ≤ ((a / 2 : Nat) : Int)) with
    | false =>
      simp only [Bool.false_eq_true, if_false, List.sum_cons]
      omega
    | true =>
      have h2 : 1 ≤ a / 2 := by
        have := of_decide_eq_true hp
        omega
      have h0 : 0 < a := lt_of_lt_of_le Nat.zero_lt_one
        (le_trans h2 (Nat.div_le_self a 2))
      have hlt : a / 2 < a := Nat.div_lt_self h0 Nat.one_lt_two
      rw [if_pos rfl]
      simp only [List.sum_cons, List.length_cons]
      omega

theorem sum_erase_le (a : Nat) (l : List Nat) : (l.erase a).sum ≤ l.sum :=
  List.Sublist.sum_le_sum (l.erase_sublist a) (fun b _ => Nat.zero_le b)

/-- Every active iteration of the loop that does not free a tensor strictly
decreases the ranking function, provided the minimum block size and the
element size are positive. -/
theorem fragMeasure_decreases {L : FragLoop} {s : FragState} {d : Decision}
    (hmin : 1 ≤ L.minBlock) (hitem : 1 ≤ L.itemsize)
    (hact : fragDone L s = false) (hfree : d.doFree = false) :
    fragMeasure L (stepFrag L s d) < fragMeasure L s := by
  obtain ⟨hlt, hne⟩ := fragDone_false_iff.mp hact
  have hlen : 0 < s.blockSizes.length := List.length_pos.mpr hne
  by_cases hb : (pickBytes s d : Int) < L.minBlock
  · rw [stepFrag_eq_remove hb]
    have h1 : (s.blockSizes.erase (pickBytes s d)).length + 1 =
        s.blockSizes.length :=
      List.length_erase_add_one (pickBytes_mem d hne)
    have h2 := sum_erase_le (pickBytes s d) s.blockSizes
    unfold fragMeasure
    simp only
    omega
  · cases ha : d.allocOk with
    | true =>
      rw [stepFrag_eq_allocKeep hb ha hfree]
      have hbytes : (1 : Int) ≤ (tensorBytes L.itemsize (pickBytes s d) : Int) := by
        exact_mod_cast one_le_tensorBytes hitem (pickBytes s d)
      unfold fragMeasure
      simp only
      omega
    | false =>
      rw [stepFrag_eq_oom hb ha]
      have h1 := halveSizes_sum_length_le hmin s.blockSizes
      unfold fragMeasure
      simp only [halveSizes] at h1 ⊢
      omega

/-- If the random stream never frees a block and the minimum block size and
element size are positive, the fragmentation loop terminates. -/
theorem frag_terminates_aux (L : FragLoop) (oracle : Nat → Decision)
    (s0 : FragState) (hmin : 1 ≤ L.minBlock) (hitem : 1 ≤ L.itemsize)
    (hfree : ∀ n, (oracle n).doFree = false) :
    ∃ n, fragDone L (statesFrag L oracle s0 n) = true := by
  by_contra hno
  push_neg at hno
  have hact : ∀ n, fragDone L (statesFrag L oracle s0 n) = false := by
    intro n
    cases h : fragDone L (statesFrag L oracle s0 n) with
    | false => rfl
    | true => exact absurd h (hno n)
  have hdec : ∀ n, fragMeasure L (statesFrag L oracle s0 (n + 1)) <
      fragMeasure L (statesFrag L oracle s0 n) := by
    intro n
    rw [statesFrag_succ_of_active (hact n)]
    exact fragMeasure_decreases hmin hitem (hact n) (hfree n)
  have key : ∀ n, fragMeasure L (statesFrag L oracle s0 n) + n ≤
      fragMeasure L s0 := by
    intro n
    induction n with
    | zero => simp [statesFrag]
    | succ k ih =>
      have := hdec k
      omega
  have := key (fragMeasure L s0 + 1)
  omega

/-- The length of the live-tensor list moves in lockstep with the
allocation and free counters. -/
theorem frag_block_count_aux (L : FragLoop) (oracle : Nat → Decision) :
    ∀ n, (statesFrag L oracle (initFrag L) n).tensors.length
        + freeCount L oracle (initFrag L) n
        = allocCount L oracle (initFrag L) n := by
  intro n
  induction n with
  | zero => simp [statesFrag, initFrag, allocCount, freeCount]
  | succ k ih =>
    cases hd : fragDone L (statesFrag L oracle (initFrag L) k) with
    | true =>
      have hA : allocAt L oracle (initFrag L) k = false := by
        simp [allocAt, hd]
      have hF : freeAt L oracle (initFrag L) k = false := by
        simp [freeAt, hd]
      rw [statesFrag_succ_of_done hd]
      simp only [allocCount, freeCount, hA, hF, if_false, Bool.false_eq_true]
      omega
    | false =>
      rw [statesFrag_succ_of_active hd]
      by_cases hb : (pickBytes (statesFrag L oracle (initFrag L) k) (oracle k) : Int)
          < L.minBlock
      · have hA : allocAt L oracle (initFrag L) k = false := by
          simp [allocAt, hd, branchOf, hb]
        have hF : freeAt L oracle (initFrag L) k = false := by
          simp [freeAt, hd, branchOf, hb]
        rw [stepFrag_eq_remove hb]
        simp only [allocCount, freeCount, hA, hF, if_false, Bool.false_eq_true]
        omega
      · cases ha : (oracle k).allocOk with
        | false =>
          have hA : allocAt L oracle (initFrag L) k = false := by
            simp [allocAt, hd, branchOf, hb, ha]
          have hF : freeAt L oracle (initFrag L) k = false := by
            simp [freeAt, hd, branchOf, hb, ha]
          rw [stepFrag_eq_oom hb ha]
          simp only [allocCount, freeCount, hA, hF, if_false, Bool.false_eq_true]
          omega
        | true =>
          cases hf : (oracle k).doFree with
          | false =>
            have hA : allocAt L oracle (initFrag L) k = true := by
              simp [allocAt, hd, branchOf, hb, ha, hf]
            have hF : freeAt L oracle (initFrag L) k = false := by
              simp [freeAt, hd, branchOf, hb, ha, hf]
            rw [stepFrag_eq_allocKeep hb ha hf]
            simp only [allocCount, freeCount, hA, hF, if_false, if_true,
              Bool.false_eq_true, List.length_append, List.length_cons,
              List.length_nil]
            omega
          | true =>
            have hA : allocAt L oracle (initFrag L) k = true := by
              simp [allocAt, hd, branchOf, hb, ha, hf]
            have hF : freeAt L oracle (initFrag L) k = true := by
              simp [freeAt, hd, branchOf, hb, ha, hf]
            rw [stepFrag_eq_allocFree hb ha hf]
            have hpos : 0 < ((statesFrag L oracle (initFrag L) k).tensors ++
                [tensorBytes L.itemsize
                  (pickBytes (statesFrag L oracle (initFrag L) k) (oracle k))]).length := by
              simp
            have hi := Nat.mod_lt (oracle k).freeIdx hpos
            have hlen := List.length_eraseIdx_add_one hi
            simp only [allocCount, freeCount, hA, hF, if_true]
            simp only [List.length_append, List.length_cons, List.length_nil] at hlen ⊢
            omega

/-! ## Claims -/

/-- C10: throughout `MemoryFragmenter.fragment`, the `allocated` counter
always equals the sum of the byte sizes (`element_size() * nelement()`) of
the tensors currently in `self._tensors`; in particular this holds for the
final reported value and the returned collection. -/
theorem frag_allocated_eq_sum_tensors (L : FragLoop)
    (oracle : Nat → Decision) :
    ∀ n, (statesFrag L oracle (initFrag L) n).allocated
        = (((statesFrag L oracle (initFrag L) n).tensors.sum : Nat) : Int) :=
  statesFrag_invariant L oracle (initFrag L)
    (fun s => s.allocated = ((s.tensors.sum : Nat) : Int))
    (by simp [initFrag])
    (fun n _ ih => stepFrag_allocated_sum ih)

/-- C5: the compute loop of `busy_loop_mem_power_fragment` checks its
termination condition only at iteration multiples of 8, so whatever the
`hours` value (including `hours = 0`) and whatever elapsed times are
observed, the iteration count at exit is a positive multiple of 8 — in
particular at least 8 iterations run before the loop can stop. -/
theorem compute_loop_exit_positive_multiple_of_8 (hours : ℚ)
    (elapsedAt : Nat → ℚ) (fuel n : Nat)
    (h : busyLoopExit hours elapsedAt fuel = some n) :
    n % 8 = 0 ∧ 8 ≤ n := by
  have := computeLoop_exit (hours * 3600) elapsedAt fuel 0 n h
  omega

/-- Witness for C5: with `hours = 0` and the elapsed clock equal to the
iteration count, the loop exits exactly at iteration 8, a positive multiple
of 8. -/
theorem compute_loop_exit_positive_multiple_of_8_witness :
    busyLoopExit 0 (fun k => (k : ℚ)) 9 = some 8 ∧ (8 % 8 = 0 ∧ 8 ≤ 8) :=
  ⟨by norm_num [busyLoopExit, computeLoop],
   compute_loop_exit_positive_multiple_of_8 0 (fun k => (k : ℚ)) 9 8
     (by norm_num [busyLoopExit, computeLoop])⟩

/-- C6: if `--device` is given an id outside `[0, device_count)`, `main`
raises `ValueError` at once: the dispatch produces an error and no work
item, so no fragmentation or compute work is started on any device. -/
theorem main_invalid_device_fatal (device_count : Nat) (d : Int)
    (h : ¬ (0 ≤ d ∧ d < (device_count : Int))) :
    mainDispatch device_count (some d)
        = .error ("Invalid GPU id " ++ toString d) ∧
      ∀ w : MainWork, mainDispatch device_count (some d) ≠ .ok w := by
  constructor
  · simp [mainDispatch, h]
  · intro w
    simp [mainDispatch, h]

/-- Witness for C6: on a 1-device system, `--device 5` is rejected. -/
theorem main_invalid_device_fatal_witness :
    mainDispatch 1 (some 5) = .error ("Invalid GPU id " ++ toString (5 : Int)) ∧
      ∀ w : MainWork, mainDispatch 1 (some 5) ≠ .ok w :=
  main_invalid_device_fatal 1 5 (by decide)

/-- C4: when an allocation attempt fails with out-of-memory (the picked
size was not below the minimum, and the allocator raised), the step leaves
`allocated` and the tensor list untouched and replaces the candidate list by
`[size // 2 for size in block_sizes if size // 2 >= min_block]` — every
remaining size halved with floor division, candidates falling below the
minimum dropped; this is the whole effect of the fallback, after which the
loop retries. -/
theorem frag_oom_halves_only_fallback (L : FragLoop) (s : FragState)
    (d : Decision) (hge : ¬ ((pickBytes s d : Int) < L.minBlock))
    (hfail : d.allocOk = false) :
    (stepFrag L s d).blockSizes = halveSizes L.minBlock s.blockSizes ∧
      (stepFrag L s d).tensors = s.tensors ∧
      (stepFrag L s d).allocated = s.allocated := by
  rw [stepFrag_eq_oom hge hfail]
  exact ⟨rfl, rfl, rfl⟩

/-- Witness for C4: a failed 8-byte allocation halves the candidates
`[8, 2]` to `[4]` (2 drops below the minimum of 2 after halving), with the
tensors and the counter unchanged. -/
theorem frag_oom_halves_only_fallback_witness :
    (stepFrag ⟨100, 2, 4, [8, 2]⟩ (initFrag ⟨100, 2, 4, [8, 2]⟩)
        ⟨0, false, false, 0⟩).blockSizes
        = halveSizes (2 : Int) [8, 2] ∧
      (stepFrag ⟨100, 2, 4, [8, 2]⟩ (initFrag ⟨100, 2, 4, [8, 2]⟩)
        ⟨0, false, false, 0⟩).tensors = (initFrag ⟨100, 2, 4, [8, 2]⟩).tensors ∧
      (stepFrag ⟨100, 2, 4, [8, 2]⟩ (initFrag ⟨100, 2, 4, [8, 2]⟩)
        ⟨0, false, false, 0⟩).allocated = (initFrag ⟨100, 2, 4, [8, 2]⟩).allocated :=
  frag_oom_halves_only_fallback ⟨100, 2, 4, [8, 2]⟩
    (initFrag ⟨100, 2, 4, [8, 2]⟩) ⟨0, false, false, 0⟩ (by decide) rfl

/-- C9: `run_all_gpus` starts exactly one worker per available device —
one for each id in `range(device_count)`, with no duplicates — each worker
running `run_on_gpu` on its own device id with the shared `hours` and
`config` arguments, and it joins every started worker before returning. -/
theorem run_all_one_worker_per_device (device_count : Nat) (hours : ℚ)
    (c : FragmentConfig) :
    (runAllStarted device_count hours c).map WorkerThread.device_id
        = List.range device_count ∧
      ((runAllStarted device_count hours c).map WorkerThread.device_id).Nodup ∧
      (∀ t ∈ runAllStarted device_count hours c,
        t.hours = hours ∧ t.config = c) ∧
      runAllJoined device_count hours c = runAllStarted device_count hours c := by
  refine ⟨?_, ?_, ?_, rfl⟩
  · simp [runAllStarted, List.map_map]
    exact List.map_id _
  · rw [show (runAllStarted device_count hours c).map WorkerThread.device_id
        = List.range device_count from by
      simp [runAllStarted, List.map_map]
      exact List.map_id _]
    exact List.nodup_range _
  · intro t ht
    simp only [runAllStarted, List.mem_map] at ht
    obtain ⟨dd, _, rfl⟩ := ht
    exact ⟨rfl, rfl⟩

/-- Witness for C9: on a 2-device system the started workers are exactly
devices 0 and 1, and the worker record for device 0 carries the shared
arguments. -/
theorem run_all_one_worker_per_device_witness :
    (runAllStarted 2 1 {}).map WorkerThread.device_id = List.range 2 ∧
      ((⟨0, 1, {}⟩ : WorkerThread).hours = 1 ∧
        (⟨0, 1, {}⟩ : WorkerThread).config = {}) :=
  ⟨(run_all_one_worker_per_device 2 1 {}).1,
   (run_all_one_worker_per_device 2 1 {}).2.2.1 ⟨0, 1, {}⟩
     (List.mem_map.mpr ⟨0, List.mem_range.mpr (by omega), rfl⟩)⟩

/-- C1 counterexample: with the adversarial stream `advOracle` — every
allocation succeeds and every successful allocation is immediately followed
by freeing that same tensor — one iteration of the loop body maps the
initial state back to itself, so the fragmentation loop never exits: at no
iteration count does the guard fail.  This refutes termination of the loop
"for every sequence of random free decisions and allocation outcomes". -/
theorem frag_loop_nonterminating_with_frees :
    ¬ ∃ n, fragDone advLoop
        (statesFrag advLoop advOracle (initFrag advLoop) n) = true := by
  have hstep : stepFrag advLoop (initFrag advLoop) ⟨0, true, true, 0⟩
      = initFrag advLoop := by decide
  have hdone : fragDone advLoop (initFrag advLoop) = false := by decide
  have hfix : ∀ m, statesFrag advLoop advOracle (initFrag advLoop) m
      = initFrag advLoop := by
    intro m
    induction m with
    | zero => rfl
    | succ k ih =>
      rw [statesFrag_succ, ih, hdone]
      simp only [Bool.false_eq_true, if_false]
      exact hstep
  rintro ⟨n, hn⟩
  rw [hfix n, hdone] at hn
  exact Bool.false_ne_true hn

/-- C1 (amended): for every configuration with a positive minimum block
size and every sequence of random size choices and allocation outcomes in
which no random free occurs, the fragmentation loop terminates, exiting
either with `allocated >= target` or with the candidate size list empty
(termination does not hold for arbitrary free decisions, see the
counterexample). -/
theorem frag_terminates_without_frees (c : FragmentConfig) (totalMem : Nat)
    (oracle : Nat → Decision) (hmin : 1 ≤ c.min_block_mib)
    (hfree : ∀ n, (oracle n).doFree = false) :
    ∃ n, (fragLoopOf c totalMem).target
          ≤ (statesFrag (fragLoopOf c totalMem) oracle
              (initFrag (fragLoopOf c totalMem)) n).allocated ∨
        (statesFrag (fragLoopOf c totalMem) oracle
            (initFrag (fragLoopOf c totalMem)) n).blockSizes = [] := by
  have hmin2 : 1 ≤ (fragLoopOf c totalMem).minBlock := by
    show (1 : Int) ≤ c.min_block_mib * 1024 * 1024
    omega
  have hitem : 1 ≤ (fragLoopOf c totalMem).itemsize := by
    show 1 ≤ c.dtype.element_size
    cases hd : c.dtype <;> decide
  obtain ⟨n, hn⟩ := frag_terminates_aux (fragLoopOf c totalMem) oracle
    (initFrag (fragLoopOf c totalMem)) hmin2 hitem hfree
  refine ⟨n, ?_⟩
  simpa [fragDone, List.isEmpty_iff] using hn

/-- Witness for the amended C1: the default configuration on an 8 GiB
device, with a stream that always picks the first candidate, always
succeeds and never frees. -/
theorem frag_terminates_without_frees_witness :
    ∃ n, (fragLoopOf {} 8589934592).target
          ≤ (statesFrag (fragLoopOf {} 8589934592)
              (constOracle ⟨0, true, false, 0⟩)
              (initFrag (fragLoopOf {} 8589934592)) n).allocated ∨
        (statesFrag (fragLoopOf {} 8589934592)
            (constOracle ⟨0, true, false, 0⟩)
            (initFrag (fragLoopOf {} 8589934592)) n).blockSizes = [] :=
  frag_terminates_without_frees {} 8589934592 (constOracle ⟨0, true, false, 0⟩)
    (by decide) (fun _ => rfl)

/-- Monotone bound: starting below `total` and admissible throughout, the
`allocated` counter stays at most `total` at every iteration. -/
theorem frag_allocated_le_total_aux (total : Int) (L : FragLoop)
    (oracle : Nat → Decision) (s0 : FragState) (h0 : s0.allocated ≤ total)
    (hadm : allocAdmissible total L oracle s0) :
    ∀ n, (statesFrag L oracle s0 n).allocated ≤ total := by
  refine statesFrag_invariant L oracle s0 (fun s => s.allocated ≤ total) h0 ?_
  intro n hd ih
  by_cases hb : (pickBytes (statesFrag L oracle s0 n) (oracle n) : Int)
      < L.minBlock
  · rw [stepFrag_eq_remove hb]
    exact ih
  · cases ha : (oracle n).allocOk with
    | false =>
      rw [stepFrag_eq_oom hb ha]
      exact ih
    | true =>
      have hcap := hadm n hd ha hb
      cases hf : (oracle n).doFree with
      | false =>
        rw [stepFrag_eq_allocKeep hb ha hf]
        exact hcap
      | true =>
        rw [stepFrag_eq_allocFree hb ha hf]
        have h0v : (0 : Int) ≤
            (((statesFrag L oracle s0 n).tensors
                ++ [tensorBytes L.itemsize
                    (pickBytes (statesFrag L oracle s0 n) (oracle n))]).getD
              ((oracle n).freeIdx %
                ((statesFrag L oracle s0 n).tensors
                  ++ [tensorBytes L.itemsize
                      (pickBytes (statesFrag L oracle s0 n) (oracle n))]).length) 0
              : Int) :=
          Int.natCast_nonneg _
        simp only
        omega

/-- C2: under the precondition that the allocator fails any request that
would exceed the remaining capacity (`allocAdmissible`), the `allocated`
counter tracked by the fragmenter never exceeds the device's total memory,
at every point of the fragmentation loop. -/
theorem frag_allocated_le_total_mem (c : FragmentConfig) (totalMem : Nat)
    (oracle : Nat → Decision)
    (hadm : allocAdmissible (totalMem : Int) (fragLoopOf c totalMem) oracle
      (initFrag (fragLoopOf c totalMem))) :
    ∀ n, (statesFrag (fragLoopOf c totalMem) oracle
        (initFrag (fragLoopOf c totalMem)) n).allocated ≤ (totalMem : Int) :=
  frag_allocated_le_total_aux (totalMem : Int) (fragLoopOf c totalMem) oracle
    (initFrag (fragLoopOf c totalMem)) (by simp [initFrag]) hadm

/-- Witness for C2: a stream whose allocations all fail is vacuously
admissible, and the default configuration on a 1 KiB device keeps
`allocated` at most 1024 through iteration 3. -/
theorem frag_allocated_le_total_mem_witness :
    (statesFrag (fragLoopOf {} 1024) (constOracle ⟨0, false, false, 0⟩)
        (initFrag (fragLoopOf {} 1024)) 3).allocated ≤ ((1024 : Nat) : Int) :=
  frag_allocated_le_total_mem {} 1024 (constOracle ⟨0, false, false, 0⟩)
    (fun _ _ hok _ => absurd hok Bool.false_ne_true) 3

/-- C3: an iteration whose free coin fires (branch `allocFree`) pops
exactly one tensor — the one at the random index into the post-append
list — and subtracts exactly that tensor's byte size from `allocated`; the
net tensor count is unchanged because the same iteration appended one.
Moreover, over any run from the initial state, the number of live blocks
always equals the number of successful allocations minus the number of
frees. -/
theorem frag_free_exact_and_block_count :
    (∀ (L : FragLoop) (s : FragState) (d : Decision),
        branchOf L s d = .allocFree →
        (stepFrag L s d).tensors
            = (s.tensors ++ [tensorBytes L.itemsize (pickBytes s d)]).eraseIdx
                (d.freeIdx
                  % (s.tensors ++ [tensorBytes L.itemsize (pickBytes s d)]).length) ∧
          (stepFrag L s d).tensors.length = s.tensors.length ∧
          (stepFrag L s d).allocated
            = s.allocated + (tensorBytes L.itemsize (pickBytes s d) : Int)
              - ((s.tensors ++ [tensorBytes L.itemsize (pickBytes s d)]).getD
                  (d.freeIdx
                    % (s.tensors
                        ++ [tensorBytes L.itemsize (pickBytes s d)]).length) 0
                  : Int)) ∧
    ∀ (L : FragLoop) (oracle : Nat → Decision) (n : Nat),
      (statesFrag L oracle (initFrag L) n).tensors.length
          + freeCount L oracle (initFrag L) n
        = allocCount L oracle (initFrag L) n := by
  constructor
  · intro L s d hbr
    obtain ⟨hb, ha, hf⟩ := branchOf_allocFree_iff.mp hbr
    rw [stepFrag_eq_allocFree hb ha hf]
    refine ⟨rfl, ?_, rfl⟩
    have hpos : 0 <
        (s.tensors ++ [tensorBytes L.itemsize (pickBytes s d)]).length := by
      simp
    have hi := Nat.mod_lt d.freeIdx hpos
    have hlen := List.length_eraseIdx_add_one hi
    simp only [List.length_append, List.length_cons, List.length_nil]
      at hlen ⊢
    omega
  · intro L oracle n
    exact frag_block_count_aux L oracle n

/-- Witness for C3: freeing the just-allocated 8-byte tensor from a state
with one live 4-byte tensor leaves the single 4-byte tensor and restores
`allocated` to 4; and the count identity holds after 2 iterations of an
allocate-and-free stream. -/
theorem frag_free_exact_and_block_count_witness :
    ((stepFrag c3L c3S c3D).tensors
        = (c3S.tensors ++ [tensorBytes c3L.itemsize (pickBytes c3S c3D)]).eraseIdx
            (c3D.freeIdx
              % (c3S.tensors ++ [tensorBytes c3L.itemsize (pickBytes c3S c3D)]).length) ∧
      (stepFrag c3L c3S c3D).tensors.length = c3S.tensors.length ∧
      (stepFrag c3L c3S c3D).allocated
        = c3S.allocated + (tensorBytes c3L.itemsize (pickBytes c3S c3D) : Int)
          - ((c3S.tensors ++ [tensorBytes c3L.itemsize (pickBytes c3S c3D)]).getD
              (c3D.freeIdx
                % (c3S.tensors
                    ++ [tensorBytes c3L.itemsize (pickBytes c3S c3D)]).length) 0
              : Int)) ∧
    ((statesFrag c3L c3O (initFrag c3L) 2).tensors.length
        + freeCount c3L c3O (initFrag c3L) 2
      = allocCount c3L c3O (initFrag c3L) 2) :=
  ⟨frag_free_exact_and_block_count.1 c3L c3S c3D (by decide),
   frag_free_exact_and_block_count.2 c3L c3O 2⟩

/-- C7 counterexample: neither `FragmentConfig` nor `main` validates
`--min-block-mib` against the candidate list: with `--min-block-mib 1024`
the constructed configuration has a minimum block size of 1 GiB while the
largest candidate is 512 MiB, violating the claimed data-model invariant. -/
theorem config_invariant_ctrex :
    ¬ configInvariant (mainConfig (95 / 100) (15 / 100) 1024) := by
  intro h
  have h2 := h.2
  have hl : largestBlockBytes (mainConfig (95 / 100) (15 / 100) 1024)
      = 536870912 := rfl
  rw [hl] at h2
  have hm : (mainConfig (95 / 100) (15 / 100) 1024).min_block_mib = 1024 := rfl
  rw [hm] at h2
  omega

/-- C7 (amended): `FragmentConfig` enforces nothing itself, but every
configuration `main` constructs keeps the default non-increasing candidate
list, and its minimum block size is at most the largest candidate whenever
`--min-block-mib` is at most 512 (the largest default candidate, in MiB);
a larger value such as `--min-block-mib 1024` violates the claimed
invariant. -/
theorem config_invariant_of_min_le_largest (r f : ℚ) (m : Int)
    (hm : m ≤ 512) : configInvariant (mainConfig r f m) := by
  constructor
  · show List.Chain' (fun a b => b ≤ a)
      (([512, 256, 128, 64, 32, 16, 8, 4, 2, 1] : List Nat).map
        (fun s => s * 1024 * 1024))
    simp only [List.map_cons, List.map_nil]
    norm_num [List.chain'_cons, List.chain'_singleton]
  · show (m * 1024 * 1024 : Int) ≤ (largestBlockBytes (mainConfig r f m) : Int)
    have hl : largestBlockBytes (mainConfig r f m) = 536870912 := rfl
    rw [hl]
    omega

/-- Witness for the amended C7: the default CLI values (`ratio 0.95`,
`free ratio 0.15`, `min block 1 MiB`) satisfy the invariant. -/
theorem config_invariant_of_min_le_largest_witness :
    configInvariant (mainConfig (95 / 100) (15 / 100) 1) :=
  config_invariant_of_min_le_largest (95 / 100) (15 / 100) 1 (by decide)

/-- If every candidate size is below the minimum, the loop only ever takes
the remove-candidate branch, and within one iteration per initial candidate
it halts with no tensors and nothing allocated. -/
theorem frag_all_below_min_aux (L : FragLoop) (oracle : Nat → Decision)
    (hlt : ∀ b ∈ L.blockSizes0, (b : Int) < L.minBlock) :
    (∀ m, fragDone L (statesFrag L oracle (initFrag L) m) = false →
        branchOf L (statesFrag L oracle (initFrag L) m) (oracle m)
          = .remove) ∧
      ∃ n, n ≤ L.blockSizes0.length ∧
        fragDone L (statesFrag L oracle (initFrag L) n) = true ∧
        (statesFrag L oracle (initFrag L) n).tensors = [] ∧
        (statesFrag L oracle (initFrag L) n).allocated = 0 := by
  have hinv : ∀ n, (statesFrag L oracle (initFrag L) n).tensors = []
      ∧ (statesFrag L oracle (initFrag L) n).allocated = 0
      ∧ ∀ b ∈ (statesFrag L oracle (initFrag L) n).blockSizes,
          (b : Int) < L.minBlock := by
    refine statesFrag_invariant L oracle (initFrag L)
      (fun s => s.tensors = [] ∧ s.allocated = 0
        ∧ ∀ b ∈ s.blockSizes, (b : Int) < L.minBlock) ⟨rfl, rfl, hlt⟩ ?_
    intro n hd ih
    obtain ⟨ht, ha, hbs⟩ := ih
    obtain ⟨-, hne⟩ := fragDone_false_iff.mp hd
    have hb : (pickBytes (statesFrag L oracle (initFrag L) n) (oracle n)
        : Int) < L.minBlock :=
      hbs _ (pickBytes_mem _ hne)
    rw [stepFrag_eq_remove hb]
    refine ⟨ht, ha, ?_⟩
    intro b hbmem
    dsimp only at hbmem
    exact hbs b (List.mem_of_mem_erase hbmem)
  have hbranch : ∀ m, fragDone L (statesFrag L oracle (initFrag L) m) = false →
      branchOf L (statesFrag L oracle (initFrag L) m) (oracle m) = .remove := by
    intro m hd
    obtain ⟨-, hne⟩ := fragDone_false_iff.mp hd
    exact branchOf_remove_iff.mpr ((hinv m).2.2 _ (pickBytes_mem _ hne))
  refine ⟨hbranch, ?_⟩
  have hlen : ∀ m,
      (∀ k, k < m → fragDone L (statesFrag L oracle (initFrag L) k) = false) →
      (statesFrag L oracle (initFrag L) m).blockSizes.length + m
        ≤ L.blockSizes0.length := by
    intro m
    induction m with
    | zero =>
      intro _
      simp [statesFrag, initFrag]
    | succ k ih =>
      intro hall
      have hd := hall k (Nat.lt_succ_self k)
      have ihk := ih (fun j hj => hall j (Nat.lt_trans hj (Nat.lt_succ_self k)))
      obtain ⟨-, hne⟩ := fragDone_false_iff.mp hd
      have hb : (pickBytes (statesFrag L oracle (initFrag L) k) (oracle k)
          : Int) < L.minBlock :=
        (hinv k).2.2 _ (pickBytes_mem _ hne)
      rw [statesFrag_succ_of_active hd, stepFrag_eq_remove hb]
      have hce := List.length_erase_add_one (pickBytes_mem (oracle k) hne)
      simp only
      omega
  by_cases hall : ∀ k, k < L.blockSizes0.length + 1 →
      fragDone L (statesFrag L oracle (initFrag L) k) = false
  · exfalso
    have := hlen (L.blockSizes0.length + 1) hall
    omega
  · push_neg at hall
    obtain ⟨k, hk, hkd⟩ := hall
    have hkd2 : fragDone L (statesFrag L oracle (initFrag L) k) = true := by
      cases h2 : fragDone L (statesFrag L oracle (initFrag L) k) with
      | false => exact absurd h2 hkd
      | true => rfl
    exact ⟨k, by omega, hkd2, (hinv k).1, (hinv k).2.1⟩

/-- C8: when `min_block_mib` is strictly greater than every configured
candidate block size, the fragmentation loop never attempts an allocation —
every iteration that runs takes the remove-candidate branch — and within
one iteration per configured candidate it terminates with an empty tensor
list and zero allocated bytes. -/
theorem frag_min_above_all_candidates (c : FragmentConfig) (totalMem : Nat)
    (oracle : Nat → Decision)
    (hgt : ∀ b ∈ c.block_size_mib, (b : Int) < c.min_block_mib) :
    (∀ m, fragDone (fragLoopOf c totalMem)
          (statesFrag (fragLoopOf c totalMem) oracle
            (initFrag (fragLoopOf c totalMem)) m) = false →
        branchOf (fragLoopOf c totalMem)
          (statesFrag (fragLoopOf c totalMem) oracle
            (initFrag (fragLoopOf c totalMem)) m) (oracle m) = .remove) ∧
      ∃ n, n ≤ c.block_size_mib.length ∧
        fragDone (fragLoopOf c totalMem)
          (statesFrag (fragLoopOf c totalMem) oracle
            (initFrag (fragLoopOf c totalMem)) n) = true ∧
        (statesFrag (fragLoopOf c totalMem) oracle
          (initFrag (fragLoopOf c totalMem)) n).tensors = [] ∧
        (statesFrag (fragLoopOf c totalMem) oracle
          (initFrag (fragLoopOf c totalMem)) n).allocated = 0 := by
  have hlt : ∀ b ∈ (fragLoopOf c totalMem).blockSizes0,
      (b : Int) < (fragLoopOf c totalMem).minBlock := by
    intro b hb
    simp only [fragLoopOf, FragmentConfig.block_size_bytes, List.mem_map] at hb
    obtain ⟨a, ha, rfl⟩ := hb
    have haa := hgt a ha
    show ((a * 1024 * 1024 : Nat) : Int) < c.min_block_mib * 1024 * 1024
    push_cast
    omega
  obtain ⟨h1, n, hn1, hn2, hn3, hn4⟩ :=
    frag_all_below_min_aux (fragLoopOf c totalMem) oracle hlt
  have hlen0 : (fragLoopOf c totalMem).blockSizes0.length
      = c.block_size_mib.length := by
    simp [fragLoopOf, FragmentConfig.block_size_bytes]
  exact ⟨h1, n, by omega, hn2, hn3, hn4⟩

/-- Witness for C8: `--min-block-mib 1024` against the default candidate
list (largest 512 MiB) on an 8 GiB device. -/
theorem frag_min_above_all_candidates_witness :
    (∀ m, fragDone (fragLoopOf { min_block_mib := 1024 } 8589934592)
          (statesFrag (fragLoopOf { min_block_mib := 1024 } 8589934592)
            (constOracle ⟨0, true, false, 0⟩)
            (initFrag (fragLoopOf { min_block_mib := 1024 } 8589934592)) m)
            = false →
        branchOf (fragLoopOf { min_block_mib := 1024 } 8589934592)
          (statesFrag (fragLoopOf { min_block_mib := 1024 } 8589934592)
            (constOracle ⟨0, true, false, 0⟩)
            (initFrag (fragLoopOf { min_block_mib := 1024 } 8589934592)) m)
          (constOracle ⟨0, true, false, 0⟩ m) = .remove) ∧
      ∃ n, n ≤ ({ min_block_mib := 1024 } : FragmentConfig).block_size_mib.length ∧
        fragDone (fragLoopOf { min_block_mib := 1024 } 8589934592)
          (statesFrag (fragLoopOf { min_block_mib := 1024 } 8589934592)
            (constOracle ⟨0, true, false, 0⟩)
            (initFrag (fragLoopOf { min_block_mib := 1024 } 8589934592)) n)
            = true ∧
        (statesFrag (fragLoopOf { min_block_mib := 1024 } 8589934592)
          (constOracle ⟨0, true, false, 0⟩)
          (initFrag (fragLoopOf { min_block_mib := 1024 } 8589934592)) n).tensors
            = [] ∧
        (statesFrag (fragLoopOf { min_block_mib := 1024 } 8589934592)
          (constOracle ⟨0, true, false, 0⟩)
          (initFrag (fragLoopOf { min_block_mib := 1024 } 8589934592)) n).allocated
            = 0 :=
  frag_min_above_all_candidates { min_block_mib := 1024 } 8589934592
    (constOracle ⟨0, true, false, 0⟩) (by decide)
